import Mathlib

/-!
Verification of the analysis-and-structuring pipeline of the medical-report
analyzer (`src/app.py`).  The Python functions `analyze_medical_report`,
`extract_section`, `parse_medications`, `plot_medicine_effectiveness`,
`render_medication_cards` and `create_diagnosis_chart` are shallowly embedded
over `List Char` (Python `str`) and an explicit value type `PyVal` (Python
`int`-or-`str` dictionary values).  Regular-expression uses in the source are
embedded by functions implementing exactly the scanning/backtracking behaviour
of the concrete patterns involved (`(\d{1,3})%`, `\d+`, `\n\s*[-*]\s+`).
-/

namespace MedApp

/-- Python `\s` / `str.strip()` whitespace on the ASCII range
(space, tab, newline, carriage return, vertical tab, form feed). -/
def isPySpace (c : Char) : Bool :=
  c == ' ' || c == '\t' || c == '\n' || c == '\r' || c == '\x0b' || c == '\x0c'

/-- Python `\d` on the ASCII range. -/
def isPyDigit (c : Char) : Bool :=
  c.isDigit

/-- Boolean test that `n` is a prefix of `h` (used to embed Python substring
search; `[] ` is a prefix of everything, matching Python's empty-substring
semantics). -/
def isPrefOf : List Char → List Char → Bool
  | [], _ => true
  | _ :: _, [] => false
  | a :: as, b :: bs => a == b && isPrefOf as bs

/-- Index of the first occurrence of `needle` in `hay`
(Python `hay.find(needle)` / `hay.index(needle)`; `none` for `-1`). -/
def findFrom (hay needle : List Char) : Option Nat :=
  if isPrefOf needle hay then some 0
  else
    match hay with
    | [] => none
    | _ :: t => (findFrom t needle).map (· + 1)

/-- Python `needle in hay`. -/
def pyContains (hay needle : List Char) : Bool :=
  (findFrom hay needle).isSome

/-- Python `c in line` for a single character. -/
def pyContainsChar (c : Char) (l : List Char) : Bool :=
  l.any (fun a => a == c)

/-- Python `hay.find(needle, start)`: first occurrence at index `≥ start`
(`none` when `start` exceeds the length, as in Python). -/
def findSubFrom (hay needle : List Char) (start : Nat) : Option Nat :=
  if start ≤ hay.length then (findFrom (hay.drop start) needle).map (· + start)
  else none

/-- Python `s.strip()`: drop whitespace from both ends. -/
def pyStrip (l : List Char) : List Char :=
  ((l.dropWhile isPySpace).reverse.dropWhile isPySpace).reverse

/-- Python `s.lower()` (ASCII). -/
def pyLower (l : List Char) : List Char :=
  l.map Char.toLower

/-- Prefix of `l` before the first occurrence of the character `c`
(Python `l.split(c)[0]`). -/
def takeUntil (c : Char) (l : List Char) : List Char :=
  l.takeWhile (fun a => a != c)

/-- Suffix of `l` after the first occurrence of the character `c`
(Python `l.split(c, 1)[1]` when `c` occurs). -/
def dropPast (c : Char) (l : List Char) : List Char :=
  (l.dropWhile (fun a => a != c)).drop 1

/-- Python `l.split(needle)[1]`: the segment strictly between the first
occurrence of `needle` and the following occurrence (or the end).
Only used under a guard that `needle` occurs in `l`. -/
def segAfterBetween (l needle : List Char) : List Char :=
  match findFrom l needle with
  | some i =>
    match findFrom (l.drop (i + needle.length)) needle with
    | some j => (l.drop (i + needle.length)).take j
    | none => l.drop (i + needle.length)
  | none => []

/-- Python `entry.split("\n")`. -/
def splitLines : List Char → List (List Char)
  | [] => [[]]
  | c :: t =>
    if c = '\n' then [] :: splitLines t
    else
      match splitLines t with
      | [] => [[c]]
      | l :: ls => (c :: l) :: ls

/-- Numeric value of a digit string (Python `int(...)` on captured digits). -/
def digitsVal (l : List Char) : Nat :=
  l.foldl (fun a c => a * 10 + (c.toNat - 48)) 0

/-- Backtracking step of the regex `(\d{1,3})%` at a fixed position:
with `k` digits available (already capped at 3), try the longest digit
capture first and require the following character to be `'%'`. -/
def pctTryK (s : List Char) : Nat → Option Nat
  | 0 => none
  | k + 1 =>
    match (s.drop (k + 1)).head? with
    | some c => if c == '%' then some (digitsVal (s.take (k + 1))) else pctTryK s k
    | none => pctTryK s k

/-- Attempt of the regex `(\d{1,3})%` anchored at the start of `s`. -/
def tryPctHere (s : List Char) : Option Nat :=
  pctTryK s (min (s.takeWhile isPyDigit).length 3)

/-- Python `re.search(r"(\d{1,3})%", s)` with the captured digits as an
integer: leftmost position wins, then longest digit run (≤ 3) followed
by `'%'`. -/
def findPct : List Char → Option Nat
  | [] => none
  | c :: t =>
    match tryPctHere (c :: t) with
    | some n => some n
    | none => findPct t

/-- Python `re.search(r"\d+", s)` with the matched run as an integer:
the first maximal digit run.  (Also the first element of
`re.findall(r"\d+", s)`, as used by the effectiveness chart.) -/
def findNum : List Char → Option Nat
  | [] => none
  | c :: t =>
    if isPyDigit c then some (digitsVal ((c :: t).takeWhile isPyDigit)) else findNum t

/-- A Python dictionary value in this program: `int` or `str`. -/
inductive PyVal where
  | int (n : Int)
  | str (s : List Char)
deriving DecidableEq

/-- A medication record: Python `dict` with string keys
(insertion-ordered association list, first hit wins on lookup). -/
def MedDict := List (List Char × PyVal)

instance : DecidableEq MedDict := by
  unfold MedDict
  infer_instance

/-- Dictionary lookup (Python `d[k]` / `d.get(k)`). -/
def getKey : MedDict → List Char → Option PyVal
  | [], _ => none
  | (k0, v0) :: t, k => if k0 = k then some v0 else getKey t k

/-- Dictionary assignment (Python `d[k] = v`): overwrite the existing
binding or append a new one. -/
def setKey : MedDict → List Char → PyVal → MedDict
  | [], k, v => [(k, v)]
  | (k0, v0) :: t, k, v => if k0 = k then (k, v) :: t else (k0, v0) :: setKey t k v

-- ---------------------------------------------------------------------------
-- Constants of src/app.py
-- ---------------------------------------------------------------------------

/-- `MAX_RETRIES = 3`. -/
def MAX_RETRIES : Nat := 3

/-- `RETRY_DELAY = 2`. -/
def RETRY_DELAY : Nat := 2

/-- The literal failure string returned by `analyze_medical_report` when all
attempts fail. -/
def AI_FAILED_MSG : List Char :=
  "AI analysis failed. Please try again later.".data

/-- The two-plus-one character section marker `"## "`. -/
def hdrMark : List Char := "## ".data

/-- The placeholder suffix of `extract_section`. -/
def noInfoSuffix : List Char :=
  "\nNo information found in this section.".data

/-- The medication section header used by `parse_medications`. -/
def medHeaderL : List Char := "## 3. Medication Recommendations".data

/-- The disease classification header used by `create_diagnosis_chart`. -/
def clsHeaderL : List Char := "## 5. Disease Classification".data

/-- Dictionary key "name". -/
def nameKeyL : List Char := "name".data

/-- Dictionary key "effectiveness". -/
def effKeyL : List Char := "effectiveness".data

/-- Dictionary key "additional_info". -/
def addInfoKeyL : List Char := "additional_info".data

/-- The literal marker "Effectiveness:" searched on the first line. -/
def effMarkerL : List Char := "Effectiveness:".data

-- ---------------------------------------------------------------------------
-- Analysis Client: analyze_medical_report (src/app.py lines 195-221)
-- ---------------------------------------------------------------------------

/-- Outcome of one `model.generate_content` attempt, as the retry loop
distinguishes them: a response carrying text, or a retryable failure
(`google.api_core` service error, or a response lacking a `text`
attribute, which the code turns into `ValueError`). -/
inductive GenOutcome where
  | success (text : List Char)
  | failure
deriving DecidableEq

/-- Observable trace of one `analyze_medical_report` run: the returned value
(`none` would mean the loop fell through, which cannot happen with
`MAX_RETRIES = 3`), the number of `generate_content` calls made, and the
sequence of `time.sleep` delays performed. -/
structure AnalyzeTrace where
  result : Option (List Char)
  calls : Nat
  sleeps : List Nat
deriving DecidableEq

/-- The retry loop `for attempt in range(MAX_RETRIES)` of
`analyze_medical_report`, run over the remaining attempt indices. -/
def analyzeGo (stub : Nat → GenOutcome) : List Nat → AnalyzeTrace
  | [] => ⟨none, 0, []⟩
  | a :: rest =>
    match stub a with
    | .success t => ⟨some t, 1, []⟩
    | .failure =>
      if a < MAX_RETRIES - 1 then
        let tr := analyzeGo stub rest
        ⟨tr.result, tr.calls + 1, RETRY_DELAY :: tr.sleeps⟩
      else
        ⟨some AI_FAILED_MSG, 1, []⟩

/-- `analyze_medical_report`, abstracted over the generative-service stub
(one `GenOutcome` per attempt index). -/
def analyze_medical_report (stub : Nat → GenOutcome) : AnalyzeTrace :=
  analyzeGo stub (List.range MAX_RETRIES)

-- ---------------------------------------------------------------------------
-- Section Splitter: extract_section (src/app.py lines 234-246)
-- ---------------------------------------------------------------------------

/-- `extract_section(content, section_title)`:
placeholder when the title is absent; otherwise the stripped substring from
the first occurrence of the title up to the next occurrence of `"## "`
found from offset `len(section_title)` of the remaining content. -/
def extract_section (content section_title : List Char) : List Char :=
  match findFrom content section_title with
  | none => hdrMark ++ section_title ++ noInfoSuffix
  | some i =>
    match findSubFrom (content.drop i) hdrMark section_title.length with
    | some p => pyStrip ((content.drop i).take p)
    | none => pyStrip (content.drop i)

-- ---------------------------------------------------------------------------
-- Medication Record Parser: parse_medications (src/app.py lines 248-296)
-- ---------------------------------------------------------------------------

/-- One match attempt of the entry-splitting regex `\n\s*[-*]\s+` anchored at
the head of the input; on success, returns the remainder after the match.
The engine's greedy `\s*` can only stop at the end of the whitespace run
(whitespace is never `-`/`*`), then `[-*]`, then a nonempty greedy `\s+`. -/
def bulletMatch : List Char → Option (List Char)
  | '\n' :: rest =>
    match rest.dropWhile isPySpace with
    | c :: rest2 =>
      if c == '-' || c == '*' then
        match rest2 with
        | d :: _ => if isPySpace d then some (rest2.dropWhile isPySpace) else none
        | [] => none
      else none
    | [] => none
  | _ => none

/-- Scanning loop of `re.split(r"\n\s*[-*]\s+", s)`: `fuel` bounds the
recursion (each step consumes at least one character, so `s.length`
suffices and the fuel-exhausted branch is unreachable from
`reSplitBullet`). -/
def splitGo : Nat → List Char → List Char → List (List Char)
  | _, acc, [] => [acc.reverse]
  | 0, acc, s => [acc.reverse ++ s]
  | fuel + 1, acc, c :: t =>
    match bulletMatch (c :: t) with
    | some r => acc.reverse :: splitGo fuel [] r
    | none => splitGo fuel (c :: acc) t

/-- Python `re.split(r"\n\s*[-*]\s+", s)`. -/
def reSplitBullet (s : List Char) : List (List Char) :=
  splitGo s.length [] s

/-- The nonempty stripped lines of one medication entry
(`[line.strip() for line in entry.split("\n") if line.strip()]`). -/
def entryLines (entry : List Char) : List (List Char) :=
  ((splitLines entry).map pyStrip).filter (fun l => !l.isEmpty)

/-- `first_line.split("(")[0].split(":")[0].strip()`. -/
def firstLineName (fl : List Char) : List Char :=
  pyStrip (takeUntil ':' (takeUntil '(' fl))

/-- Effectiveness extraction from the first line of an entry:
first the pattern `(\d{1,3})%` anywhere in the line; otherwise, when
`"Effectiveness:"` occurs, the stripped text after it, from which either
the percent pattern (when it contains `%`) or the first bare integer is
taken.  `none` when nothing resolves. -/
def firstLineEff (fl : List Char) : Option Nat :=
  match findPct fl with
  | some n => some n
  | none =>
    if pyContains fl effMarkerL then
      if pyContainsChar '%' (pyStrip (segAfterBetween fl effMarkerL)) then
        findPct (pyStrip (segAfterBetween fl effMarkerL))
      else
        findNum (pyStrip (segAfterBetween fl effMarkerL))
    else none

/-- Normalization of a detail-line key:
`key.strip().lower().replace(" ", "_")`. -/
def normKey (l : List Char) : List Char :=
  ((pyStrip l).map Char.toLower).map (fun c => if c = ' ' then '_' else c)

/-- `(` or `)`, for Python `line.strip("()")`. -/
def isParenChar (c : Char) : Bool :=
  c == '(' || c == ')'

/-- Python `line.strip("()")`. -/
def stripParens (l : List Char) : List Char :=
  ((l.dropWhile isParenChar).reverse.dropWhile isParenChar).reverse

/-- `line.startswith("(")`. -/
def startsParen : List Char → Bool
  | '(' :: _ => true
  | _ => false

/-- `line.endswith(")")`. -/
def endsParen (l : List Char) : Bool :=
  match l.getLast? with
  | some c => c == ')'
  | none => false

/-- Processing of one detail line of an entry (the loop body over
`lines[1:]`): a colon line stores its normalized key with the stripped
value; a fully parenthesized line stores `additional_info`; anything else
is discarded. -/
def detailStep (d : MedDict) (line : List Char) : MedDict :=
  if pyContainsChar ':' line then
    setKey d (normKey (takeUntil ':' line)) (.str (pyStrip (dropPast ':' line)))
  else if startsParen line && endsParen line then
    setKey d addInfoKeyL (.str (stripParens line))
  else d

/-- The key a detail line would write through its colon rule
(`none` for non-colon lines). -/
def detailKeyOf (line : List Char) : Option (List Char) :=
  if pyContainsChar ':' line then some (normKey (takeUntil ':' line)) else none

/-- The dictionary built from the first line of an entry: the name, then
optionally the effectiveness (`med_data["name"] = ...` followed by the
effectiveness extraction of lines 267-282). -/
def parseEntryBase (fl : List Char) : MedDict :=
  match firstLineEff fl with
  | some n =>
    setKey (setKey [] nameKeyL (.str (firstLineName fl))) effKeyL (.int (Int.ofNat n))
  | none => setKey [] nameKeyL (.str (firstLineName fl))

/-- Parse of one medication entry: `none` when it has no nonempty line
(the `continue` branch), otherwise the dictionary built from the first
line (name, optional effectiveness) and the detail lines. -/
def parseEntry (entry : List Char) : Option MedDict :=
  match entryLines entry with
  | [] => none
  | fl :: rest => some (rest.foldl detailStep (parseEntryBase fl))

/-- `parse_medications(content)`: extract the medication section, split it
on bullet markers, drop the pre-bullet preamble, and parse each entry. -/
def parse_medications (content : List Char) : List MedDict :=
  ((reSplitBullet (extract_section content medHeaderL)).drop 1).filterMap parseEntry

-- ---------------------------------------------------------------------------
-- Metric Normalizer: effectiveness-for-display (src/app.py lines 309-323 and
-- 440-449)
-- ---------------------------------------------------------------------------

/-- The effectiveness value the comparison chart plots for one record
(`plot_medicine_effectiveness`): `med.get("effectiveness", 0)`; a string
yields its first integer run via `re.findall(r"\d+", eff)`, default `0`. -/
def chartEffVal (eff : Option PyVal) : Int :=
  match eff with
  | none => 0
  | some (.int n) => n
  | some (.str s) =>
    match findNum s with
    | some n => Int.ofNat n
    | none => 0

/-- Python `int(t)` on a stripped string: optional sign followed by digits
(digit-grouping underscores are not produced by this program's data and
are not modelled). -/
def pyIntOfString? (l : List Char) : Option Int :=
  match l with
  | '+' :: ds => if ds ≠ [] ∧ ds.all isPyDigit then some (Int.ofNat (digitsVal ds)) else none
  | '-' :: ds => if ds ≠ [] ∧ ds.all isPyDigit then some (-(Int.ofNat (digitsVal ds))) else none
  | ds => if ds ≠ [] ∧ ds.all isPyDigit then some (Int.ofNat (digitsVal ds)) else none

/-- The effectiveness value a medication card displays
(`render_medication_cards`): `med.get("effectiveness", "N/A")`; a string
containing `%` is converted by `int(s.replace("%", "").strip())` when that
parses, and left unchanged otherwise (the `except ValueError: pass`). -/
def cardEffVal (eff : Option PyVal) : PyVal :=
  match eff with
  | none => .str "N/A".data
  | some (.int n) => .int n
  | some (.str s) =>
    if pyContainsChar '%' s then
      match pyIntOfString? (pyStrip (s.filter (fun c => !(c == '%')))) with
      | some n => .int n
      | none => .str s
    else .str s

-- ---------------------------------------------------------------------------
-- Metric Normalizer: classification weighting (src/app.py lines 355-367)
-- ---------------------------------------------------------------------------

/-- The sequential keyword overwrites of `create_diagnosis_chart` applied to
the lower-cased classification section text: start uniform, then the
`chronic`, `infectious`, `common` checks each unconditionally replace the
distribution. -/
def classificationSizes (cls : List Char) : List Nat :=
  let sizes0 := [25, 25, 25, 25]
  let sizes1 := if pyContains cls "chronic".data then [40, 20, 20, 20] else sizes0
  let sizes2 := if pyContains cls "infectious".data then [20, 40, 20, 20] else sizes1
  let sizes3 := if pyContains cls "common".data then [20, 20, 40, 20] else sizes2
  sizes3

/-- The pie-chart distribution `create_diagnosis_chart` computes from the
full analysis text. -/
def create_diagnosis_chart_sizes (content : List Char) : List Nat :=
  if pyContains content clsHeaderL then
    classificationSizes (pyLower (extract_section content clsHeaderL))
  else [25, 25, 25, 25]

-- ---------------------------------------------------------------------------
-- Lemmas about the substring-search embedding
-- ---------------------------------------------------------------------------

theorem isPrefOf_iff (n h : List Char) : isPrefOf n h = true ↔ n <+: h := by
  induction n generalizing h with
  | nil => simp [isPrefOf]
  | cons a as ih =>
    cases h with
    | nil => simp [isPrefOf]
    | cons b bs =>
      simp [isPrefOf, List.cons_prefix_cons, Bool.and_eq_true, beq_iff_eq, ih]

theorem findFrom_some_pref (h n : List Char) (i : Nat)
    (hf : findFrom h n = some i) : n <+: h.drop i := by
  induction h generalizing i with
  | nil =>
    unfold findFrom at hf
    split at hf
    · rename_i hp
      obtain rfl : (0 : Nat) = i := by injection hf
      exact (isPrefOf_iff n []).mp hp
    · exact absurd hf (by simp)
  | cons c t ih =>
    unfold findFrom at hf
    split at hf
    · rename_i hp
      obtain rfl : (0 : Nat) = i := by injection hf
      exact (isPrefOf_iff n (c :: t)).mp hp
    · simp only [Option.map_eq_some'] at hf
      obtain ⟨j, hj, rfl⟩ := hf
      simpa using ih j hj

theorem findFrom_some_min (h n : List Char) (i : Nat)
    (hf : findFrom h n = some i) : ∀ j, j < i → ¬ n <+: h.drop j := by
  induction h generalizing i with
  | nil =>
    unfold findFrom at hf
    split at hf
    · obtain rfl : (0 : Nat) = i := by injection hf
      intro j hj
      exact absurd hj (Nat.not_lt_zero j)
    · exact absurd hf (by simp)
  | cons c t ih =>
    unfold findFrom at hf
    split at hf
    · obtain rfl : (0 : Nat) = i := by injection hf
      intro j hj
      exact absurd hj (Nat.not_lt_zero j)
    · rename_i hp
      simp only [Option.map_eq_some'] at hf
      obtain ⟨j0, hj0, rfl⟩ := hf
      intro j hj
      cases j with
      | zero =>
        intro hpre
        exact hp ((isPrefOf_iff n (c :: t)).mpr (by simpa using hpre))
      | succ j1 =>
        have := ih j0 hj0 j1 (by omega)
        simpa using this

theorem findFrom_none_iff (h n : List Char) :
    findFrom h n = none ↔ ∀ j, ¬ n <+: h.drop j := by
  constructor
  · intro hf
    induction h with
    | nil =>
      intro j
      unfold findFrom at hf
      split at hf
      · exact absurd hf (by simp)
      · intro hpre
        rename_i hp
        have : n <+: ([] : List Char) := by simpa using hpre
        exact hp ((isPrefOf_iff n []).mpr this)
    | cons c t ih =>
      unfold findFrom at hf
      split at hf
      · exact absurd hf (by simp)
      · rename_i hp
        simp only [Option.map_eq_none'] at hf
        intro j
        cases j with
        | zero =>
          intro hpre
          exact hp ((isPrefOf_iff n (c :: t)).mpr (by simpa using hpre))
        | succ j1 =>
          have := ih hf j1
          simpa using this
  · intro hall
    cases hf : findFrom h n with
    | none => rfl
    | some i => exact absurd (findFrom_some_pref h n i hf) (hall i)

theorem findFrom_eq_some_iff (h n : List Char) (i : Nat) :
    findFrom h n = some i ↔
      (n <+: h.drop i ∧ ∀ j, j < i → ¬ n <+: h.drop j) := by
  constructor
  · intro hf
    exact ⟨findFrom_some_pref h n i hf, findFrom_some_min h n i hf⟩
  · rintro ⟨hpre, hmin⟩
    cases hf : findFrom h n with
    | none => exact absurd hpre ((findFrom_none_iff h n).mp hf i)
    | some i0 =>
      have h1 := findFrom_some_pref h n i0 hf
      have h2 := findFrom_some_min h n i0 hf
      rcases Nat.lt_trichotomy i i0 with hlt | heq | hgt
      · exact absurd hpre (h2 i hlt)
      · rw [heq]
      · exact absurd h1 (hmin i0 hgt)

theorem pref_subset {l₁ l₂ : List Char} (hp : l₁ <+: l₂) {c : Char}
    (hc : c ∈ l₁) : c ∈ l₂ := by
  obtain ⟨t, rfl⟩ := hp
  exact List.mem_append_left t hc

theorem pref_take_of : ∀ (l₁ l₂ : List Char) (n : Nat),
    l₁ <+: l₂ → l₁.length ≤ n → l₁ <+: l₂.take n := by
  intro l₁
  induction l₁ with
  | nil => intro l₂ n _ _; exact List.nil_prefix
  | cons a as ih =>
    intro l₂ n hp hn
    cases l₂ with
    | nil => exact absurd hp (by simp)
    | cons b bs =>
      rw [List.cons_prefix_cons] at hp
      obtain ⟨rfl, hp2⟩ := hp
      cases n with
      | zero => exact absurd hn (by simp)
      | succ m =>
        rw [List.take_succ_cons, List.cons_prefix_cons]
        exact ⟨rfl, ih bs m hp2 (by simpa using hn)⟩

theorem mem_dropWhile_of {p : Char → Bool} {c : Char} :
    ∀ {l : List Char}, c ∈ l → p c = false → c ∈ l.dropWhile p := by
  intro l
  induction l with
  | nil => intro h _; exact absurd h (by simp)
  | cons a t ih =>
    intro hc hp
    rw [List.dropWhile_cons]
    split
    · rename_i hpa
      rcases List.mem_cons.mp hc with rfl | hct
      · rw [hp] at hpa; exact absurd hpa (by simp)
      · exact ih hct hp
    · exact hc

theorem pyStrip_ne_nil_of {l : List Char} {c : Char}
    (hc : c ∈ l) (hsp : isPySpace c = false) : pyStrip l ≠ [] := by
  unfold pyStrip
  have h1 : c ∈ l.dropWhile isPySpace := mem_dropWhile_of hc hsp
  have h2 : c ∈ (l.dropWhile isPySpace).reverse := by simpa using h1
  have h3 : c ∈ (l.dropWhile isPySpace).reverse.dropWhile isPySpace :=
    mem_dropWhile_of h2 hsp
  have h4 : c ∈ ((l.dropWhile isPySpace).reverse.dropWhile isPySpace).reverse := by
    simpa using h3
  exact List.ne_nil_of_mem h4

-- ---------------------------------------------------------------------------
-- Lemmas about the dictionary embedding
-- ---------------------------------------------------------------------------

theorem getKey_setKey (d : MedDict) (k : List Char) (v : PyVal) (q : List Char) :
    getKey (setKey d k v) q = if q = k then some v else getKey d q := by
  induction d with
  | nil =>
    by_cases hqk : q = k
    · subst hqk
      simp [setKey, getKey]
    · simp only [setKey, getKey]
      rw [if_neg (Ne.symm hqk), if_neg hqk]
  | cons p t ih =>
    obtain ⟨k0, v0⟩ := p
    simp only [setKey]
    by_cases h0 : k0 = k
    · subst h0
      simp only [if_pos rfl, getKey]
      by_cases hqk : q = k0
      · subst hqk
        simp
      · rw [if_neg (Ne.symm hqk), if_neg hqk, if_neg (Ne.symm hqk)]
    · rw [if_neg h0]
      simp only [getKey]
      by_cases hq0 : k0 = q
      · subst hq0
        rw [if_pos rfl, if_pos rfl, if_neg h0]
      · rw [if_neg hq0, if_neg hq0, ih]

/-- The property of a dictionary value the amended effectiveness invariant
asserts: a nonnegative integer, or a string. -/
def EffOk (v : PyVal) : Prop :=
  (∃ n : Int, v = PyVal.int n ∧ 0 ≤ n) ∨ (∃ s, v = PyVal.str s)

theorem eff_inv_detailStep (d : MedDict) (line : List Char)
    (h : ∀ v, getKey d effKeyL = some v → EffOk v) :
    ∀ v, getKey (detailStep d line) effKeyL = some v → EffOk v := by
  intro v hv
  unfold detailStep at hv
  split at hv
  · rw [getKey_setKey] at hv
    split at hv
    · exact Or.inr ⟨_, (Option.some_inj.mp hv).symm⟩
    · exact h v hv
  · split at hv
    · rw [getKey_setKey] at hv
      split at hv
      · exact Or.inr ⟨_, (Option.some_inj.mp hv).symm⟩
      · exact h v hv
    · exact h v hv

theorem eff_inv_foldl (ls : List (List Char)) (d : MedDict)
    (h : ∀ v, getKey d effKeyL = some v → EffOk v) :
    ∀ v, getKey (ls.foldl detailStep d) effKeyL = some v → EffOk v := by
  induction ls generalizing d with
  | nil => exact h
  | cons l t ih =>
    rw [List.foldl_cons]
    exact ih (detailStep d l) (eff_inv_detailStep d l h)

theorem getKey_detailStep_keep (d : MedDict) (line : List Char) (k : List Char)
    (hk : detailKeyOf line ≠ some k) (hadd : k ≠ addInfoKeyL) :
    getKey (detailStep d line) k = getKey d k := by
  unfold detailStep
  split
  · rename_i hcolon
    rw [getKey_setKey]
    split
    · rename_i hkeq
      exact absurd (by simp [detailKeyOf, hcolon, hkeq]) hk
    · rfl
  · split
    · rw [getKey_setKey]
      split
      · rename_i hkeq
        exact absurd hkeq hadd
      · rfl
    · rfl

theorem getKey_foldl_keep (ls : List (List Char)) (d : MedDict) (k : List Char)
    (hk : ∀ l ∈ ls, detailKeyOf l ≠ some k) (hadd : k ≠ addInfoKeyL) :
    getKey (ls.foldl detailStep d) k = getKey d k := by
  induction ls generalizing d with
  | nil => rfl
  | cons l t ih =>
    rw [List.foldl_cons]
    rw [ih (detailStep d l) (fun x hx => hk x (List.mem_cons_of_mem l hx))]
    exact getKey_detailStep_keep d l k (hk l (List.mem_cons_self l t)) hadd

theorem takeUntil_takeUntil (c₁ c₂ : Char) (l : List Char) :
    takeUntil c₂ (takeUntil c₁ l) =
      l.takeWhile (fun a => a != c₁ && a != c₂) := by
  induction l with
  | nil => rfl
  | cons a t ih =>
    simp only [takeUntil] at ih ⊢
    rw [List.takeWhile_cons, List.takeWhile_cons]
    by_cases h1 : a = c₁
    · have b1 : (a != c₁) = false := by simp [h1]
      simp [b1]
    · have b1 : (a != c₁) = true := by simp [h1]
      rw [b1]
      simp only [if_true]
      rw [List.takeWhile_cons]
      by_cases h2 : a = c₂
      · have b2 : (a != c₂) = false := by simp [h2]
        simp [b2]
      · have b2 : (a != c₂) = true := by simp [h2]
        simp [b1, b2, ih]

-- ---------------------------------------------------------------------------
-- Retry-loop facts (claims C1, C2, C10)
-- ---------------------------------------------------------------------------

/-- A service stub that fails on the first two attempts and then succeeds. -/
def stubFlaky : Nat → GenOutcome :=
  fun k => if k < 2 then .failure else .success "ok".data

/-- A service stub that fails on every attempt. -/
def stubAllFail : Nat → GenOutcome :=
  fun _ => .failure

/-- A service stub that immediately succeeds with exactly the text of the
failure message. -/
def stubEchoFailMsg : Nat → GenOutcome :=
  fun _ => .success AI_FAILED_MSG

theorem analyze_all_fail_trace (stub : Nat → GenOutcome)
    (h0 : stub 0 = .failure) (h1 : stub 1 = .failure) (h2 : stub 2 = .failure) :
    analyze_medical_report stub =
      ⟨some AI_FAILED_MSG, 3, [RETRY_DELAY, RETRY_DELAY]⟩ := by
  unfold analyze_medical_report
  rw [show List.range MAX_RETRIES = [0, 1, 2] from rfl]
  simp [analyzeGo, h0, h1, h2, MAX_RETRIES]

/-- C1: a stub failing twice then succeeding yields the success text after
exactly three calls and two fixed `RETRY_DELAY` waits; a stub that always
fails is called exactly three times; a first success at attempt `k`
returns that attempt's text at once, after `k + 1` calls and `k` waits. -/
theorem retry_trace_behavior :
    (∀ stub : Nat → GenOutcome, ∀ t : List Char,
      stub 0 = .failure → stub 1 = .failure → stub 2 = .success t →
      analyze_medical_report stub = ⟨some t, 3, [RETRY_DELAY, RETRY_DELAY]⟩)
  ∧ (∀ stub : Nat → GenOutcome,
      (∀ k, k < MAX_RETRIES → stub k = .failure) →
      (analyze_medical_report stub).calls = 3)
  ∧ (∀ stub : Nat → GenOutcome, ∀ k, ∀ t : List Char,
      k < MAX_RETRIES → stub k = .success t → (∀ j, j < k → stub j = .failure) →
      (analyze_medical_report stub).result = some t ∧
      (analyze_medical_report stub).calls = k + 1 ∧
      (analyze_medical_report stub).sleeps = List.replicate k RETRY_DELAY) := by
  refine ⟨?_, ?_, ?_⟩
  · intro stub t h0 h1 h2
    unfold analyze_medical_report
    rw [show List.range MAX_RETRIES = [0, 1, 2] from rfl]
    simp [analyzeGo, h0, h1, h2, MAX_RETRIES]
  · intro stub hall
    rw [analyze_all_fail_trace stub (hall 0 (by decide)) (hall 1 (by decide))
      (hall 2 (by decide))]
  · intro stub k t hk hsucc hfail
    have hk3 : k < 3 := hk
    unfold analyze_medical_report
    rw [show List.range MAX_RETRIES = [0, 1, 2] from rfl]
    interval_cases k
    · simp [analyzeGo, hsucc]
    · simp [analyzeGo, hsucc, hfail 0 (by decide), MAX_RETRIES]
    · simp [analyzeGo, hsucc, hfail 0 (by decide), hfail 1 (by decide), MAX_RETRIES]

/-- Witness for `retry_trace_behavior` at a stub that fails twice then
succeeds with text "ok". -/
theorem retry_trace_behavior_witness :
    analyze_medical_report stubFlaky =
      ⟨some "ok".data, 3, [RETRY_DELAY, RETRY_DELAY]⟩ :=
  retry_trace_behavior.1 stubFlaky "ok".data rfl rfl rfl

/-- C2 counterexample: with an always-failing stub, `analyze_medical_report`
returns the plain string "AI analysis failed. Please try again later." — the
very same value an immediately successful call returning that text yields, so
the failure return is not a tagged value distinguishable from a success. -/
theorem analyze_failure_untagged_cex :
    (analyze_medical_report stubAllFail).result = some AI_FAILED_MSG ∧
    (analyze_medical_report stubEchoFailMsg).result = some AI_FAILED_MSG ∧
    (analyze_medical_report stubAllFail).result =
      (analyze_medical_report stubEchoFailMsg).result := by
  exact ⟨rfl, rfl, rfl⟩

/-- C2 amended: when every attempt fails with a retryable condition the
function returns (without raising) the plain string
"AI analysis failed. Please try again later.", and on a first-attempt
success it returns the response text — both through the same untagged
string channel. -/
theorem analyze_failure_plain_string :
    ∀ stub : Nat → GenOutcome,
      ((∀ k, k < MAX_RETRIES → stub k = .failure) →
        (analyze_medical_report stub).result = some AI_FAILED_MSG) ∧
      (∀ t, stub 0 = .success t →
        (analyze_medical_report stub).result = some t) := by
  intro stub
  constructor
  · intro hall
    rw [analyze_all_fail_trace stub (hall 0 (by decide)) (hall 1 (by decide))
      (hall 2 (by decide))]
  · intro t h0
    unfold analyze_medical_report
    rw [show List.range MAX_RETRIES = [0, 1, 2] from rfl]
    simp [analyzeGo, h0]

/-- Witness for `analyze_failure_plain_string` at the always-failing stub. -/
theorem analyze_failure_plain_string_witness :
    (analyze_medical_report stubAllFail).result = some AI_FAILED_MSG :=
  (analyze_failure_plain_string stubAllFail).1 (fun _ _ => rfl)

/-- C10: when all three attempts fail with a retryable condition, the
returned value is the literal string
"AI analysis failed. Please try again later.", of the same plain-string
shape as a successful analysis: a stub that succeeds with that exact text
produces an identical result, so no tag distinguishes the two. -/
theorem analyze_failure_literal_string :
    ∀ stub : Nat → GenOutcome,
      (∀ k, k < MAX_RETRIES → stub k = .failure) →
      (analyze_medical_report stub).result = some AI_FAILED_MSG ∧
      (analyze_medical_report stub).result =
        (analyze_medical_report (fun _ => GenOutcome.success AI_FAILED_MSG)).result := by
  intro stub hall
  rw [analyze_all_fail_trace stub (hall 0 (by decide)) (hall 1 (by decide))
    (hall 2 (by decide))]
  exact ⟨rfl, rfl⟩

/-- Witness for `analyze_failure_literal_string` at the always-failing
stub. -/
theorem analyze_failure_literal_string_witness :
    (analyze_medical_report stubAllFail).result = some AI_FAILED_MSG ∧
    (analyze_medical_report stubAllFail).result =
      (analyze_medical_report (fun _ => GenOutcome.success AI_FAILED_MSG)).result :=
  analyze_failure_literal_string stubAllFail (fun _ _ => rfl)

-- ---------------------------------------------------------------------------
-- Classification weighting (claim C6)
-- ---------------------------------------------------------------------------

/-- Concrete analysis text whose classification section contains "chronic"
before "common". -/
def clsChronicCommonText : List Char :=
  "## 5. Disease Classification\nchronic and common".data

/-- C6: the sequential unconditional overwrites of `create_diagnosis_chart`
make the last matching keyword of the fixed order chronic, infectious,
common decide the distribution, whatever was matched before it; in
particular a section containing both "chronic" and "common" (in that
textual order) yields the "common"-dominant distribution. -/
theorem classification_last_match_wins :
    (∀ cls : List Char,
      classificationSizes cls =
        if pyContains cls "common".data then [20, 20, 40, 20]
        else if pyContains cls "infectious".data then [20, 40, 20, 20]
        else if pyContains cls "chronic".data then [40, 20, 20, 20]
        else [25, 25, 25, 25])
  ∧ create_diagnosis_chart_sizes clsChronicCommonText = [20, 20, 40, 20] := by
  constructor
  · intro cls
    rfl
  · rfl

-- ---------------------------------------------------------------------------
-- Effectiveness-for-display (claim C7)
-- ---------------------------------------------------------------------------

/-- C7 counterexample: on the string effectiveness "70-80%", the chart
normalization (`plot_medicine_effectiveness`) produces the integer 70 while
the medication card (`render_medication_cards`) leaves the string unchanged
(`int("70-80")` raises and is swallowed), so the two display rules are not
the same function on records. -/
theorem effectiveness_display_rules_differ_cex :
    chartEffVal (some (PyVal.str "70-80%".data)) = 70 ∧
    cardEffVal (some (PyVal.str "70-80%".data)) = PyVal.str "70-80%".data ∧
    cardEffVal (some (PyVal.str "70-80%".data)) ≠
      PyVal.int (chartEffVal (some (PyVal.str "70-80%".data))) := by
  refine ⟨by decide, by decide, by decide⟩

/-- C7 amended: the chart and card normalizations agree on every record
whose effectiveness value is an integer (both display exactly that
integer); they differ on string and absent values, e.g. an absent
effectiveness is 0 for the chart but the string "N/A" on the card. -/
theorem effectiveness_display_agree_on_int :
    (∀ n : Int,
      cardEffVal (some (PyVal.int n)) = PyVal.int n ∧
      chartEffVal (some (PyVal.int n)) = n ∧
      cardEffVal (some (PyVal.int n)) = PyVal.int (chartEffVal (some (PyVal.int n))))
  ∧ chartEffVal none = 0
  ∧ cardEffVal none = PyVal.str "N/A".data := by
  exact ⟨fun n => ⟨rfl, rfl, rfl⟩, rfl, rfl⟩

-- ---------------------------------------------------------------------------
-- Section Splitter facts (claims C3, C4)
-- ---------------------------------------------------------------------------

theorem findSubFrom_eq_some_iff (hay needle : List Char) (s p : Nat)
    (hs : s ≤ hay.length) :
    findSubFrom hay needle s = some p ↔
      (s ≤ p ∧ needle <+: hay.drop p ∧
        ∀ q, s ≤ q → q < p → ¬ needle <+: hay.drop q) := by
  unfold findSubFrom
  rw [if_pos hs]
  constructor
  · intro h
    simp only [Option.map_eq_some'] at h
    obtain ⟨m, hm, rfl⟩ := h
    have h1 := findFrom_some_pref _ _ _ hm
    have h2 := findFrom_some_min _ _ _ hm
    rw [List.drop_drop] at h1
    refine ⟨by omega, by rw [show m + s = s + m from by omega]; exact h1, ?_⟩
    intro q hq1 hq2 hpre
    apply h2 (q - s) (by omega)
    rw [List.drop_drop, show s + (q - s) = q from by omega]
    exact hpre
  · rintro ⟨hp1, hp2, hp3⟩
    have hsome : findFrom (hay.drop s) needle = some (p - s) := by
      rw [findFrom_eq_some_iff]
      constructor
      · rw [List.drop_drop, show s + (p - s) = p from by omega]
        exact hp2
      · intro j hj hpre
        rw [List.drop_drop] at hpre
        exact hp3 (s + j) (by omega) (by omega) hpre
    rw [hsome]
    simp only [Option.map_some']
    rw [show p - s + s = p from by omega]

/-- C3 amended / counterexample input: text whose body contains a mid-line
occurrence of the literal `"## "` that is not a subsequent header line. -/
def midlineText : List Char := "## 1. Key Findings\nsee ## 2 note\nmore".data

/-- The "Key Findings" header. -/
def kfHeader : List Char := "## 1. Key Findings".data

/-- Text with a genuine subsequent header after the matched one. -/
def nextHeaderText : List Char :=
  "## 1. Key Findings\nA\n## 2. Potential Diagnoses\nB".data

/-- C3 counterexample: the `"## "` occurring mid-line inside the section
body IS treated as a boundary by `extract_section` (the code cuts at
`remaining_content.find("## ", len(section_title))`, which is not
restricted to header lines), so the result stops at "see" instead of
extending to the end of the text as the claim predicts. -/
theorem extract_section_midline_boundary_cex :
    extract_section midlineText kfHeader = "## 1. Key Findings\nsee".data ∧
    extract_section midlineText kfHeader ≠ pyStrip midlineText := by
  exact ⟨by decide, by decide⟩

/-- C3 amended: when `title` first occurs at index `i` of `content`, the
extracted section is the trimmed remainder when no occurrence of `"## "`
exists at offset `≥ len(title)` of the remainder, and otherwise is the
trimmed cut of the remainder just before the FIRST such occurrence —
whether or not that occurrence is a genuine header line. -/
theorem extract_section_boundary :
    ∀ content title i, title <+: content.drop i →
      (∀ j, j < i → ¬ title <+: content.drop j) →
      ((∀ q, title.length ≤ q → ¬ hdrMark <+: (content.drop i).drop q) →
        extract_section content title = pyStrip (content.drop i))
    ∧ (∀ p, title.length ≤ p → hdrMark <+: (content.drop i).drop p →
        (∀ q, title.length ≤ q → q < p → ¬ hdrMark <+: (content.drop i).drop q) →
        extract_section content title = pyStrip ((content.drop i).take p)) := by
  intro content title i hpre hmin
  have hfind : findFrom content title = some i :=
    (findFrom_eq_some_iff content title i).mpr ⟨hpre, hmin⟩
  have hlen : title.length ≤ (content.drop i).length := hpre.length_le
  constructor
  · intro hnone
    have hinner : findFrom ((content.drop i).drop title.length) hdrMark = none :=
      (findFrom_none_iff _ _).mpr (fun m => by
        rw [List.drop_drop]
        exact hnone (title.length + m) (by omega))
    have hsub : findSubFrom (content.drop i) hdrMark title.length = none := by
      unfold findSubFrom
      rw [if_pos hlen, hinner]
      rfl
    simp [extract_section, hfind, hsub]
  · intro p hp1 hp2 hp3
    have hsub : findSubFrom (content.drop i) hdrMark title.length = some p :=
      (findSubFrom_eq_some_iff _ _ _ _ hlen).mpr ⟨hp1, hp2, hp3⟩
    simp [extract_section, hfind, hsub]

/-- Witness for `extract_section_boundary`: with a genuine following header
at offset 21, the section is cut right before it. -/
theorem extract_section_boundary_witness :
    extract_section nextHeaderText kfHeader = "## 1. Key Findings\nA".data := by
  have h := (extract_section_boundary nextHeaderText kfHeader 0 (by decide)
      (fun j hj => absurd hj (Nat.not_lt_zero j))).2 21 (by decide) (by decide)
      (fun q hq1 hq2 => by
        have hlen : kfHeader.length = 18 := rfl
        rw [hlen] at hq1
        interval_cases q <;> decide)
  exact h.trans (by decide)

/-- C4 counterexample: on empty text and empty header the header "occurs"
(Python's empty-substring membership), the remainder is empty, and
`extract_section` returns the empty string. -/
theorem extract_section_empty_cex :
    extract_section ([] : List Char) ([] : List Char) = [] := by
  decide

/-- C4 amended: `extract_section` returns exactly the placeholder
`"## {header}\nNo information found in this section."` whenever the header
does not occur, and its result is non-empty whenever the header contains at
least one non-whitespace character (the empty or all-whitespace header
occurring in the text is the only way to get an empty result). -/
theorem extract_section_nonempty_and_placeholder :
    (∀ content title : List Char,
      (∀ j, ¬ title <+: content.drop j) →
      extract_section content title = hdrMark ++ title ++ noInfoSuffix)
  ∧ (∀ content title : List Char,
      (∃ c ∈ title, isPySpace c = false) →
      extract_section content title ≠ []) := by
  constructor
  · intro content title hall
    have hf : findFrom content title = none := (findFrom_none_iff _ _).mpr hall
    simp [extract_section, hf]
  · rintro content title ⟨c, hc, hcs⟩
    cases hf : findFrom content title with
    | none =>
      simp only [extract_section, hf]
      have hpos : 0 < (hdrMark ++ title ++ noInfoSuffix).length := by
        rw [List.length_append, List.length_append]
        have h3 : hdrMark.length = 3 := rfl
        omega
      exact List.length_pos.mp hpos
    | some i =>
      have hpre : title <+: content.drop i := findFrom_some_pref content title i hf
      simp only [extract_section, hf]
      cases hsub : findSubFrom (content.drop i) hdrMark title.length with
      | none =>
        exact pyStrip_ne_nil_of (pref_subset hpre hc) hcs
      | some p =>
        have hp : title.length ≤ p := by
          unfold findSubFrom at hsub
          split at hsub
          · simp only [Option.map_eq_some'] at hsub
            obtain ⟨q, _, rfl⟩ := hsub
            omega
          · exact absurd hsub (by simp)
        have hpre2 : title <+: (content.drop i).take p :=
          pref_take_of _ _ p hpre hp
        exact pyStrip_ne_nil_of (pref_subset hpre2 hc) hcs

/-- Witness for `extract_section_nonempty_and_placeholder` at empty text and
the header "Q": the placeholder is produced and is non-empty. -/
theorem extract_section_nonempty_witness :
    extract_section "".data "Q".data = hdrMark ++ "Q".data ++ noInfoSuffix ∧
    extract_section "".data "Q".data ≠ [] := by
  constructor
  · apply extract_section_nonempty_and_placeholder.1 "".data "Q".data
    intro j
    have h0 : ("".data : List Char) = [] := rfl
    rw [h0, List.drop_nil, List.prefix_nil]
    decide
  · exact extract_section_nonempty_and_placeholder.2 "".data "Q".data
      ⟨'Q', by decide, by decide⟩

-- ---------------------------------------------------------------------------
-- Medication parser facts (claims C5, C8, C9)
-- ---------------------------------------------------------------------------

/-- C9: `parse_medications` on the empty string, and on any text in which
the medication header does not occur, yields the empty sequence (the
extracted section is then the fixed placeholder, which contains no bullet
marker, so the split yields a single preamble fragment that is dropped). -/
theorem parse_medications_empty_on_missing_section :
    parse_medications [] = [] ∧
    ∀ content : List Char,
      (∀ j, ¬ medHeaderL <+: content.drop j) → parse_medications content = [] := by
  constructor
  · decide
  · intro content hall
    have hf : findFrom content medHeaderL = none := (findFrom_none_iff _ _).mpr hall
    have hsec : extract_section content medHeaderL =
        hdrMark ++ medHeaderL ++ noInfoSuffix := by
      simp [extract_section, hf]
    unfold parse_medications
    rw [hsec]
    decide

/-- Witness for `parse_medications_empty_on_missing_section` at a text with
no medication section. -/
theorem parse_medications_empty_witness :
    parse_medications "hello".data = [] := by
  apply parse_medications_empty_on_missing_section.2
  intro j
  by_cases hj : j < 5
  · interval_cases j <;> decide
  · have hlen : ("hello".data : List Char).length = 5 := rfl
    have hdrop : ("hello".data : List Char).drop j = [] :=
      List.drop_eq_nil_of_le (by omega)
    rw [hdrop, List.prefix_nil]
    decide

/-- C5 counterexample input: a medication entry whose first line matches the
percent pattern with three digits. -/
def highPctText : List Char := "## 3. Medication Recommendations\n- Foo 850%".data

/-- C5 counterexample: the record parsed from "- Foo 850%" carries
`effectiveness = 850`, an integer outside 0..100 (the `(\d{1,3})%` pattern
accepts up to three digits and the code never clamps). -/
theorem effectiveness_out_of_range_cex :
    parse_medications highPctText =
      [[(nameKeyL, PyVal.str "Foo 850%".data), (effKeyL, PyVal.int 850)]] ∧
    getKey [(nameKeyL, PyVal.str "Foo 850%".data), (effKeyL, PyVal.int 850)] effKeyL =
      some (PyVal.int 850) ∧
    ¬ ((0 : Int) ≤ 850 ∧ (850 : Int) ≤ 100) := by
  refine ⟨by decide, by decide, by decide⟩

theorem eff_base_ok (fl : List Char) :
    ∀ v, getKey (parseEntryBase fl) effKeyL = some v → EffOk v := by
  intro v hv
  unfold parseEntryBase at hv
  split at hv
  · rw [getKey_setKey, if_pos rfl] at hv
    exact Or.inl ⟨Int.ofNat _, (Option.some_inj.mp hv).symm, Int.ofNat_nonneg _⟩
  · rw [getKey_setKey, if_neg (by decide)] at hv
    exact absurd hv (by simp [getKey])

/-- C5 amended: every `effectiveness` value a parsed record carries is
either a nonnegative integer (with no 0..100 guarantee) or a string (a
later `Effectiveness:` detail line stores its raw string value under the
same key). -/
theorem effectiveness_int_nonneg_or_str :
    ∀ content : List Char, ∀ d ∈ parse_medications content, ∀ v,
      getKey d effKeyL = some v → EffOk v := by
  intro content d hd v hv
  unfold parse_medications at hd
  rw [List.mem_filterMap] at hd
  obtain ⟨e, _, hpe⟩ := hd
  unfold parseEntry at hpe
  split at hpe
  · exact absurd hpe (by simp)
  · rename_i fl rest hE
    have hd2 : rest.foldl detailStep (parseEntryBase fl) = d := by
      simpa using hpe
    subst hd2
    exact eff_inv_foldl rest (parseEntryBase fl) (eff_base_ok fl) v hv

/-- Witness for `effectiveness_int_nonneg_or_str` at the record parsed from
"- Foo 850%". -/
theorem effectiveness_int_nonneg_or_str_witness :
    EffOk (PyVal.int 850) :=
  effectiveness_int_nonneg_or_str highPctText
    [(nameKeyL, PyVal.str "Foo 850%".data), (effKeyL, PyVal.int 850)]
    (by decide) (PyVal.int 850) (by decide)

/-- C8 counterexample input: an entry with a later detail line whose
normalized key is "name". -/
def nameOverwriteText : List Char :=
  "## 3. Medication Recommendations\n- Foo\nName: Bar".data

/-- C8 counterexample: a later "Name:" detail line overwrites the name taken
from the first line, so the record's name is "Bar", not the trimmed
first-line prefix "Foo" the claim prescribes. -/
theorem medication_name_overwritten_cex :
    parse_medications nameOverwriteText = [[(nameKeyL, PyVal.str "Bar".data)]] ∧
    PyVal.str "Bar".data ≠ PyVal.str "Foo".data := by
  exact ⟨by decide, by decide⟩

/-- C8 amended: for every entry none of whose later lines writes the key
"name", the record's name is the trimmed prefix of the first line up to the
first `(` or `:` (whichever comes first; the whole trimmed line when
neither occurs). -/
theorem medication_name_rule :
    ∀ entry d fl rest, entryLines entry = fl :: rest → parseEntry entry = some d →
      (∀ l ∈ rest, detailKeyOf l ≠ some nameKeyL) →
      getKey d nameKeyL =
        some (PyVal.str (pyStrip (fl.takeWhile (fun c => c != '(' && c != ':')))) := by
  intro entry d fl rest hE hpe hrest
  unfold parseEntry at hpe
  rw [hE] at hpe
  have hd2 : rest.foldl detailStep (parseEntryBase fl) = d := by simpa using hpe
  subst hd2
  rw [getKey_foldl_keep rest _ nameKeyL hrest (by decide)]
  have hbase : getKey (parseEntryBase fl) nameKeyL =
      some (PyVal.str (firstLineName fl)) := by
    unfold parseEntryBase
    split
    · rw [getKey_setKey, if_neg (by decide), getKey_setKey, if_pos rfl]
    · rw [getKey_setKey, if_pos rfl]
  rw [hbase]
  simp only [firstLineName, takeUntil_takeUntil]

/-- One medication entry as split from the text of the C8 example. -/
def paraEntry : List Char := "Paracetamol (500mg) - Effectiveness: 85%".data

/-- The record the parser produces for `paraEntry`. -/
def paraDict : MedDict :=
  [(nameKeyL, PyVal.str "Paracetamol".data), (effKeyL, PyVal.int 85)]

/-- Witness for `medication_name_rule` at the entry
"Paracetamol (500mg) - Effectiveness: 85%": name "Paracetamol" and
effectiveness 85. -/
theorem medication_name_rule_witness :
    parseEntry paraEntry = some paraDict ∧
    getKey paraDict nameKeyL = some (PyVal.str "Paracetamol".data) ∧
    getKey paraDict effKeyL = some (PyVal.int 85) := by
  refine ⟨by decide, ?_, by decide⟩
  have h := medication_name_rule paraEntry paraDict paraEntry []
    (by decide) (by decide) (by simp)
  exact h.trans (by decide)

end MedApp
